import Mathlib

/-!
# Verification of the Docker release-information digest engine

This file gives a shallow embedding of the markdown-to-digest extraction
engine in `src/util.js` (exported as `parseReleases` and
`parseSecurityAnnouncements`) and proves/refutes the specification claims
about it.

Strings are modelled as `List Char` (`Str`).  Each JavaScript regular
expression used by the source is embedded as a dedicated scanner that
mirrors the JS semantics of that particular pattern (greedy/lazy
quantifier behaviour, word boundaries, multiline anchors, and the fact
that in a JavaScript regex the escape `\Z` is an identity escape matching
the literal character `Z`, not an end-of-input anchor).
-/

set_option maxRecDepth 10000

abbrev Str := List Char

/-- JS `\s` and `String.prototype.trim` whitespace class (ASCII part plus
the usual Unicode space characters). -/
def isJsWs (c : Char) : Bool :=
  c = ' ' || c = '\t' || c = '\n' || c = '\x0b' || c = '\x0c' || c = '\r' ||
  c.val = 0xa0 || c.val = 0x1680 || (0x2000 ≤ c.val && c.val ≤ 0x200a) ||
  c.val = 0x2028 || c.val = 0x2029 || c.val = 0x202f || c.val = 0x205f ||
  c.val = 0x3000 || c.val = 0xfeff

/-- JS `\d`. -/
def isDigitCh (c : Char) : Bool := '0' ≤ c && c ≤ '9'

/-- JS `[A-Za-z]`. -/
def isLetterCh (c : Char) : Bool := ('a' ≤ c && c ≤ 'z') || ('A' ≤ c && c ≤ 'Z')

/-- JS `\w` (word character). -/
def isWordCh (c : Char) : Bool := isLetterCh c || isDigitCh c || c = '_'

/-- ASCII lowercasing, as `String.prototype.toLowerCase` acts on the ASCII
letters that all our month-name tokens consist of. -/
def lowerCh (c : Char) : Char :=
  if 'A' ≤ c && c ≤ 'Z' then Char.ofNat (c.toNat + 32) else c

/-- Case-insensitive character comparison (JS `i` flag on ASCII letters). -/
def ciEq (a b : Char) : Bool := lowerCh a = lowerCh b

/-- Case-insensitive prefix test for a literal in a regex with the `i` flag. -/
def ciIsPrefixOf : Str → Str → Bool
  | [], _ => true
  | _ :: _, [] => false
  | a :: as, b :: bs => ciEq a b && ciIsPrefixOf as bs

/-- `markdown.replace(/\r\n?/g, "\n")`. -/
def normalizeNewlines : Str → Str
  | [] => []
  | '\r' :: '\n' :: rest => '\n' :: normalizeNewlines rest
  | '\r' :: rest => '\n' :: normalizeNewlines rest
  | c :: rest => c :: normalizeNewlines rest

/-- `String.prototype.trim`. -/
def trimStr (s : Str) : Str :=
  (s.dropWhile (fun c => isJsWs c)).reverse.dropWhile (fun c => isJsWs c) |>.reverse

/-- `String.prototype.split("\n")`: always returns at least one (possibly
empty) line; a trailing newline yields a trailing empty line. -/
def linesOf : Str → List Str
  | [] => [[]]
  | c :: rest =>
    match linesOf rest with
    | [] => [[c]]
    | l :: ls => if c = '\n' then [] :: l :: ls else (c :: l) :: ls

/-- `Array.prototype.join(sep)`. -/
def joinSep (sep : Str) : List Str → Str
  | [] => []
  | [x] => x
  | x :: y :: rest => x ++ sep ++ joinSep sep (y :: rest)

/-- `replace(/[ \t]+$/gm, "")`: strip trailing spaces/tabs from every line. -/
def dropTrailingSpTab (l : Str) : Str :=
  l.reverse.dropWhile (fun c => c = ' ' || c = '\t') |>.reverse

/-- The `[ \t]+$` (multiline, global) replacement used by both pipelines. -/
def stripTrailingWs (s : Str) : Str := joinSep ['\n'] ((linesOf s).map dropTrailingSpTab)

/- ### The segmenter

Both entry points split the normalized document with
`/^##\s+([^\n]+)\n([\s\S]*?)(?=^##\s+|\Z)/gm` (the security variant writes
the heading part as `([^\n]+?)\s*\n`, which only moves trailing
heading-line whitespace out of the capture and past any blank lines into
the consumed text; after the `.trim()` that both pipelines apply to the
heading and to the body, the resulting records are identical, so a single
segmenter is embedded).

Crucially, JavaScript has no `\Z` anchor: inside a JS regex `\Z` is an
identity escape matching the literal character `Z`.  So the body of a
section extends to the next `^##\s+` heading line or to the first literal
`Z`, whichever comes first, and a final section followed by neither is not
matched at all. -/

/-- `md.get? i` convenience. -/
def chAt (md : Str) (i : Nat) : Option Char := md.get? i

/-- Is position `i` a `^` position under the `m` flag? -/
def lineStartAt (md : Str) (i : Nat) : Bool :=
  i = 0 || chAt md (i - 1) = some '\n'

/-- Length of the maximal `\s*` run starting at `i` (fuel-bounded scan). -/
def wsRunLen (md : Str) : Nat → Nat → Nat
  | 0, _ => 0
  | fuel + 1, i =>
    match chAt md i with
    | some c => if isJsWs c then wsRunLen md fuel (i + 1) + 1 else 0
    | none => 0

/-- Index of the first `'\n'` at or after `i`, if any. -/
def nextNlFrom (md : Str) : Nat → Nat → Option Nat
  | 0, _ => none
  | fuel + 1, i =>
    match chAt md i with
    | some c => if c = '\n' then some i else nextNlFrom md fuel (i + 1)
    | none => none

/-- Substring `[i, j)` of `md`. -/
def sliceStr (md : Str) (i j : Nat) : Str := (md.drop i).take (j - i)

/-- Backtracking search for the `\s+([^\n]+)\n` part of the heading regex
after the `##` at `s`: the greedy `\s+` tries length `k` from the maximal
whitespace run downwards; a length is viable when the following character
exists, is not a newline, and its line is terminated by a newline.
Returns `(p, q)`: heading capture is `[p, q)` and `q` holds the `'\n'`. -/
def headKAux (md : Str) (s : Nat) : Nat → Option (Nat × Nat)
  | 0 => none
  | k + 1 =>
    let p := s + 2 + (k + 1)
    match chAt md p with
    | some c =>
      if c = '\n' then headKAux md s k
      else
        match nextNlFrom md (md.length + 1) p with
        | some q => some (p, q)
        | none => headKAux md s k
    | none => headKAux md s k

/-- Attempt the heading part `^##\s+([^\n]+)\n` at position `s`.  On
success returns the raw heading capture and the body start position. -/
def headingMatchAt (md : Str) (s : Nat) : Option (Str × Nat) :=
  if lineStartAt md s && chAt md s = some '#' && chAt md (s + 1) = some '#' then
    match headKAux md s (wsRunLen md (md.length + 1) (s + 2)) with
    | some (p, q) => some (sliceStr md p q, q + 1)
    | none => none
  else none

/-- The lookahead `(?=^##\s+|\Z)`: a next top-level heading start, or —
because `\Z` is an identity escape in JavaScript — a literal `Z`. -/
def boundaryAt (md : Str) (i : Nat) : Bool :=
  (lineStartAt md i && chAt md i = some '#' && chAt md (i + 1) = some '#' &&
    (match chAt md (i + 2) with | some c => isJsWs c | none => false)) ||
  chAt md i = some 'Z'

/-- First boundary position at or after `i`. -/
def findBoundaryFrom (md : Str) : Nat → Nat → Option Nat
  | 0, _ => none
  | fuel + 1, i =>
    if boundaryAt md i then some i
    else if i ≥ md.length + 2 then none
    else findBoundaryFrom md fuel (i + 1)

/-- Full section-regex match attempt at `s`: heading part plus the lazy
body `([\s\S]*?)` up to the first boundary. -/
def fullMatchAt (md : Str) (s : Nat) : Option (Str × Str × Nat) :=
  match headingMatchAt md s with
  | some (heading, bodyStart) =>
    match findBoundaryFrom md (md.length + 2) bodyStart with
    | some r => some (heading, sliceStr md bodyStart r, r)
    | none => none
  | none => none

/-- `re.exec` search: first position at or after `i` where the full
pattern matches. -/
def findMatchFrom (md : Str) : Nat → Nat → Option (Str × Str × Nat)
  | 0, _ => none
  | fuel + 1, i =>
    match fullMatchAt md i with
    | some res => some res
    | none => if i ≥ md.length then none else findMatchFrom md fuel (i + 1)

/-- The `while ((m = re.exec(md)) !== null)` loop: emit raw
(heading-capture, body) pairs. -/
def execLoop (md : Str) : Nat → Nat → List (Str × Str)
  | 0, _ => []
  | fuel + 1, i =>
    match findMatchFrom md (md.length + 1) i with
    | some (h, b, r) => (h, b) :: execLoop md fuel r
    | none => []

/-- All raw sections of a (newline-normalized) document.  Every match
consumes at least five characters, so `md.length + 1` rounds of fuel are
never exhausted. -/
def sectionsOf (md : Str) : List (Str × Str) := execLoop md (md.length + 1) 0

/- ### Release field extraction -/

/-- Maximal run of characters satisfying `p`, returned as the matched
characters (the greedy `X+`/`X*` of a character class). -/
def takeRun (p : Char → Bool) : Str → Str
  | [] => []
  | c :: rest => if p c then c :: takeRun p rest else []

/-- `versionHeading.match(/^\s*([0-9]+\.[0-9]+\.[0-9]+)\b/)`: the capture,
if the anchored pattern matches.  The digit runs are greedy and cannot
backtrack (shrinking one puts a digit where `\.`/`\b` is required), so the
match is deterministic. -/
def versionTriple (h : Str) : Option Str :=
  let rest0 := h.dropWhile (fun c => isJsWs c)
  let r1 := takeRun isDigitCh rest0
  let rest1 := rest0.drop (r1.length + 1)
  let r2 := takeRun isDigitCh rest1
  let rest2 := rest1.drop (r2.length + 1)
  let r3 := takeRun isDigitCh rest2
  if r1 ≠ [] && rest0.get? r1.length = some '.' &&
      r2 ≠ [] && rest1.get? r2.length = some '.' &&
      r3 ≠ [] &&
      (match rest2.drop r3.length with | [] => true | c :: _ => !isWordCh c) then
    some (r1 ++ '.' :: r2 ++ '.' :: r3)
  else none

/-- Attempt `\{\{<\s*NAME[^>]*>\}\}\s*\n?` at the head of `s` (`NAME`
compared case-insensitively when `ci` is set, for the `gi`-flagged
rss-button pattern).  `[^>]*` cannot cross a `>`, so the `>` of `>}}` is
the first `>` after the name; the trailing greedy `\s*` absorbs the whole
whitespace run (the optional `\n?` finds none left).  Returns the suffix
after the match. -/
def tryShortcodeAt (name : Str) (ci : Bool) (s : Str) : Option Str :=
  match s with
  | '{' :: '{' :: '<' :: rest =>
    let rest1 := rest.dropWhile (fun c => isJsWs c)
    if (if ci then ciIsPrefixOf name rest1 else name.isPrefixOf rest1) then
      let rest2 := rest1.drop name.length
      let notGt := takeRun (fun c => c ≠ '>') rest2
      match rest2.drop notGt.length with
      | '>' :: '}' :: '}' :: rest3 => some (rest3.dropWhile (fun c => isJsWs c))
      | _ => none
    else none
  | _ => none

/-- `body.replace(/\{\{<\s*NAME[^>]*>\}\}\s*\n?/g, "")` — deletions scan
left to right over the original string without rescanning the result. -/
def removeShortcodes (name : Str) (ci : Bool) : Nat → Str → Str
  | 0, s => s
  | _ + 1, [] => []
  | fuel + 1, c :: cs =>
    match tryShortcodeAt name ci (c :: cs) with
    | some rest => removeShortcodes name ci fuel rest
    | none => c :: removeShortcodes name ci fuel cs

/-- `body.match(/\{\{<\s*release-date\s+date="([^"]+)"\s*>\}\}/)`: first
match, returning the `[^"]+` capture. -/
def tryReleaseDateAt (s : Str) : Option Str :=
  match s with
  | '{' :: '{' :: '<' :: rest =>
    let rest1 := rest.dropWhile (fun c => isJsWs c)
    if ("release-date".data).isPrefixOf rest1 then
      let rest2 := rest1.drop 12
      let ws := takeRun (fun c => isJsWs c) rest2
      if ws = [] then none else
      let rest3 := rest2.drop ws.length
      if ("date=\"".data).isPrefixOf rest3 then
        let rest4 := rest3.drop 6
        let cap := takeRun (fun c => c ≠ '"') rest4
        if cap = [] then none else
        match rest4.drop cap.length with
        | '"' :: rest5 =>
          match (rest5.dropWhile (fun c => isJsWs c)) with
          | '>' :: '}' :: '}' :: _ => some cap
          | _ => none
        | _ => none
      else none
    else none
  | _ => none

/-- Scan for the first release-date shortcode match. -/
def releaseDateOf : Str → Option Str
  | [] => none
  | c :: cs =>
    match tryReleaseDateAt (c :: cs) with
    | some cap => some cap
    | none => releaseDateOf cs

/- ### Admonition collapse

Release pipeline: `details.replace(/^>\s*\[!\w+\]\s*$/gm, ">")`.
Security pipeline: `.replace(/^\s*>\s*\[!\w+\]\s*$/gim, ">")` (the `i`
flag is inert: the pattern has no cased literal).  The inner `\s*` runs
may cross newlines; the final `\s*$` consumes its whitespace run up to
the last newline inside the run (the `$` is zero-width, the newline is
not consumed), or to end of input. -/

/-- Given the suffix at a match's `\s*$` tail, split off the consumed
whitespace: the run up to end-of-input, or up to (excluding) the last
`'\n'` of the run; `none` when the run ends mid-line before a non-ws
character. -/
def admTailSplit (s : Str) : Option Str :=
  let run := takeRun (fun c => isJsWs c) s
  if run.length = s.length then some []   -- `$` at end of input
  else
    -- find the last '\n' inside the run; the remainder starts there
    let rev := run.reverse
    let back := takeRun (fun c => c ≠ '\n') rev
    if back.length = run.length then none
    else some (s.drop (run.length - back.length - 1))

/-- The admonition pattern after any permitted leading whitespace:
`>` then `\s*` then `[!\w+]` then the `\s*$` tail.  Returns the suffix at
which scanning resumes (the `$` position). -/
def tryAdmCore : Str → Option Str
  | '>' :: rest =>
    match rest.dropWhile (fun c => isJsWs c) with
    | '[' :: '!' :: rest2 =>
      let w := takeRun isWordCh rest2
      if w = [] then none else
      match rest2.drop w.length with
      | ']' :: rest3 => admTailSplit rest3
      | _ => none
    | _ => none
  | _ => none

/-- Attempt the admonition pattern at a line start, on suffix `s`.
`sec` selects the security variant with its leading `\s*`. -/
def tryAdmAt (sec : Bool) (s : Str) : Option Str :=
  tryAdmCore (if sec then s.dropWhile (fun c => isJsWs c) else s)

/-- The admonition replace-all: scan with a line-start flag; a match is
replaced by `">"` and scanning resumes at the match end. -/
def admColl (sec : Bool) : Nat → Bool → Str → Str
  | 0, _, s => s
  | _ + 1, _, [] => []
  | fuel + 1, atStart, c :: cs =>
    match (if atStart then tryAdmAt sec (c :: cs) else none) with
    | some rest => '>' :: admColl sec fuel false rest
    | none => c :: admColl sec fuel (c = '\n') cs

/-- The full release-body cleaning step (`src/util.js` lines 291–303):
remove the three shortcode directives, trim, collapse admonition heads,
strip trailing horizontal whitespace. -/
def cleanReleaseBody (body : Str) : Str :=
  let b1 := removeShortcodes "release-date".data false (body.length + 1) body
  let b2 := removeShortcodes "desktop-install".data false (b1.length + 1) b1
  let b3 := removeShortcodes "desktop-install-v2".data false (b2.length + 1) b2
  let b4 := trimStr b3
  let b5 := admColl false (b4.length + 1) true b4
  stripTrailingWs b5

/- ### CVE extraction -/

/-- Attempt `CVE-\d{4}-\d{4,7}` (case-insensitive) at the head of `s`;
returns the matched text verbatim and the suffix after it.  The final
greedy `\d{4,7}` takes at most seven digits of the available run. -/
def tryCveAt (s : Str) : Option (Str × Str) :=
  match s with
  | c1 :: c2 :: c3 :: '-' :: rest =>
    if ciEq c1 'c' && ciEq c2 'v' && ciEq c3 'e' then
      let ds := takeRun isDigitCh rest
      if ds.length = 4 then
        match rest.drop 4 with
        | '-' :: rest2 =>
          let ds2 := takeRun isDigitCh rest2
          if ds2.length < 4 then none
          else
            let taken := ds2.take 7
            some (c1 :: c2 :: c3 :: '-' :: ds ++ '-' :: taken, rest2.drop taken.length)
        | _ => none
      else none
    else none
  | _ => none

/-- `(title + "\n" + body).match(/CVE-\d{4}-\d{4,7}/gi) || []`. -/
def cveMatches : Nat → Str → List Str
  | 0, _ => []
  | _ + 1, [] => []
  | fuel + 1, c :: cs =>
    match tryCveAt (c :: cs) with
    | some (m, rest) => m :: cveMatches fuel rest
    | none => cveMatches fuel cs

/-- `new Set(xs)` materialised with `Array.from`: first-occurrence order,
exact string identity. -/
def dedupKeepFirst : List Str → List Str
  | [] => []
  | x :: xs =>
    let rest := dedupKeepFirst xs
    if x ∈ rest then x :: rest.filter (fun y => y ≠ x) else x :: rest

/-- Code-unit lexicographic order: the default `Array.prototype.sort()`
string comparison (and `localeCompare` on these ASCII strings). -/
def lexLe : Str → Str → Bool
  | [], _ => true
  | _ :: _, [] => false
  | a :: as, b :: bs => if a < b then true else if b < a then false else lexLe as bs

/-- Stable insertion preserving original order among `le`-ties; `foldr`
over the input gives exactly the (unique) stable sort that
`Array.prototype.sort` performs with a consistent comparator. -/
def insLe {α : Type} (le : α → α → Bool) (x : α) : List α → List α
  | [] => [x]
  | y :: ys => if le x y then x :: y :: ys else y :: insLe le x ys

/-- `Array.prototype.sort(cmp)` for a consistent comparator, as the
stable sort induced by `le a b ↔ cmp(a,b) ≤ 0`. -/
def sortJs {α : Type} (le : α → α → Bool) (l : List α) : List α :=
  l.foldr (insLe le) []

/-- `Array.from(new Set(s.match(/CVE-\d{4}-\d{4,7}/gi) || [])).sort()`. -/
def cveField (s : Str) : List Str :=
  sortJs lexLe (dedupKeepFirst (cveMatches (s.length + 1) s))

/- ### Last-updated line: `body.match(/^_Last updated\s+(.+?)_$/im)` -/

/-- First `'\n'` index at or after `i`, or `md.length` (the `$` position
analysis: the lazy `(.+?)` cannot cross a newline, so a successful match
ends exactly before the first newline after the capture start — the line
must end in `_`). -/
def nlOrEnd (md : Str) (i : Nat) : Nat :=
  match nextNlFrom md (md.length + 1) i with
  | some q => q
  | none => md.length

/-- `\s+` backtracking for the last-updated pattern: try run length `k`
downwards; at `p = base + k` the line must hold at least one capture
character and terminate (line end or `'\n'`) right after a literal `'_'`.
Returns `(p, nl)`: capture is `[p, nl-1)`, match ends at `nl`. -/
def luKAux (md : Str) (base : Nat) : Nat → Option (Nat × Nat)
  | 0 => none
  | k + 1 =>
    let p := base + (k + 1)
    match chAt md p with
    | some c =>
      if c = '\n' then luKAux md base k
      else
        let nl := nlOrEnd md p
        if p + 2 ≤ nl && chAt md (nl - 1) = some '_' then some (p, nl)
        else luKAux md base k
    | none => luKAux md base k

/-- Attempt `^_Last updated\s+(.+?)_$` at position `i` (which must be a
`^` position).  Returns `(match0, rawCapture)`. -/
def tryLastUpdatedAt (md : Str) (i : Nat) : Option (Str × Str) :=
  if lineStartAt md i && chAt md i = some '_' &&
      ciIsPrefixOf "Last updated".data (md.drop (i + 1)) then
    match luKAux md (i + 13) (wsRunLen md (md.length + 1) (i + 13)) with
    | some (p, nl) => some (sliceStr md i nl, sliceStr md p (nl - 1))
    | none => none
  else none

/-- Scan all positions for the first last-updated match (the `^` anchor
limits candidates to line starts, which `tryLastUpdatedAt` enforces). -/
def findLastUpdated (md : Str) : Nat → Nat → Option (Str × Str)
  | 0, _ => none
  | fuel + 1, i =>
    match tryLastUpdatedAt md i with
    | some res => some res
    | none => if i ≥ md.length then none else findLastUpdated md fuel (i + 1)

/-- `String.prototype.replace(sub, "")` with a *string* pattern: remove
the first literal occurrence of `sub`. -/
def removeFirstOcc (sub : Str) : Nat → Str → Str
  | 0, s => s
  | _ + 1, [] => []
  | fuel + 1, c :: cs =>
    if sub ≠ [] && sub.isPrefixOf (c :: cs) then (c :: cs).drop sub.length
    else c :: removeFirstOcc sub fuel cs

/- ### Product / version extraction from the title -/

/-- Greedy `[0-9]+\.[0-9]+(?:\.[0-9]+)?` at the head of `s`; returns the
matched version token and the suffix.  (The `(?:\b|[^0-9])` that follows
this group in the second heuristic is always satisfied after a maximal
digit run, so it imposes no constraint.) -/
def tryVersionNum (s : Str) : Option (Str × Str) :=
  let r1 := takeRun isDigitCh s
  if r1 = [] then none else
  match s.drop r1.length with
  | '.' :: rest1 =>
    let r2 := takeRun isDigitCh rest1
    if r2 = [] then none else
    let rest2 := rest1.drop r2.length
    match rest2 with
    | '.' :: rest3 =>
      let r3 := takeRun isDigitCh rest3
      if r3 = [] then some (r1 ++ '.' :: r2, rest2)
      else some (r1 ++ '.' :: r2 ++ '.' :: r3, rest3.drop r3.length)
    | _ => some (r1 ++ '.' :: r2, rest2)
  | _ => none

/-- Heuristic 1: `/^(Docker\s+\w+)\s+([0-9]+\.[0-9]+(?:\.[0-9]+)?)/i`. -/
def tryDockerWordVersion (title : Str) : Option (Str × Str) :=
  if ciIsPrefixOf "Docker".data title then
    let afterD := title.drop 6
    let ws1 := takeRun (fun c => isJsWs c) afterD
    if ws1 = [] then none else
    let w := takeRun isWordCh (afterD.drop ws1.length)
    if w = [] then none else
    let afterW := afterD.drop (ws1.length + w.length)
    let ws2 := takeRun (fun c => isJsWs c) afterW
    if ws2 = [] then none else
    match tryVersionNum (afterW.drop ws2.length) with
    | some (v, _) => some (trimStr (title.take 6 ++ ws1 ++ w), v)
    | none => none
  else none

/-- Heuristic 2 body: at a fixed lazy-split point, the greedy
`[\s:,-]*v?` then the version token. -/
def m2At (s : Str) : Option (Str × Str) :=
  let cls := takeRun (fun c => isJsWs c || c = ':' || c = ',' || c = '-') s
  let rest := s.drop cls.length
  match rest with
  | c :: rest2 =>
    if ciEq c 'v' then
      match tryVersionNum rest2 with
      | some (v, _) => some ([], v)   -- capture boundary handled by caller
      | none =>
        match tryVersionNum rest with
        | some (v, _) => some ([], v)
        | none => none
    else
      match tryVersionNum rest with
      | some (v, _) => some ([], v)
      | none => none
  | [] => none

/-- Heuristic 2: `/^(.*?)[\s:,-]*v?([0-9]+\.[0-9]+(?:\.[0-9]+)?)(?:\b|[^0-9])/i`
— the lazy `(.*?)` tries split points left to right. -/
def tryAnyVersion (title : Str) : Nat → Nat → Option (Str × Str)
  | 0, _ => none
  | fuel + 1, i =>
    if i > title.length then none else
    match m2At (title.drop i) with
    | some (_, v) => some (title.take i, v)
    | none => tryAnyVersion title fuel (i + 1)

/-- `product.replace(/[:\-–]+$/, "")`: strip one trailing run of colons,
hyphens and en-dashes. -/
def stripTrailPunct (s : Str) : Str :=
  s.reverse.dropWhile (fun c => c = ':' || c = '-' || c = '–') |>.reverse

/-- Heuristic 3 group loop for `/^(Docker(?:\s+\w+)*)(?::|\s|$)/i`:
consume `\s+\w+` groups greedily, then require `:`, whitespace or end;
if that fails after at least one group, dropping the last group always
succeeds (the position then holds whitespace). -/
def m3Groups (s : Str) : Nat → Nat → Nat
  | 0, acc => acc
  | fuel + 1, acc =>
    let rest := s.drop acc
    let ws := takeRun (fun c => isJsWs c) rest
    if ws = [] then acc else
    let w := takeRun isWordCh (rest.drop ws.length)
    if w = [] then acc
    else m3Groups s fuel (acc + ws.length + w.length)

/-- Heuristic 3: leading `Docker` phrase with no version token. -/
def tryDockerPhrase (title : Str) : Option Str :=
  if ciIsPrefixOf "Docker".data title then
    let rest := title.drop 6
    let wholeEnd := 6 + m3Groups rest (rest.length + 1) 0
    let okAt : Nat → Bool := fun e =>
      match chAt title e with
      | none => true
      | some c => c = ':' || isJsWs c
    if okAt wholeEnd then some (trimStr (title.take wholeEnd))
    else if wholeEnd > 6 then
      -- drop the last `\s+\w+` group: the check then sits on its
      -- leading whitespace and succeeds
      let w := (takeRun isWordCh (title.take wholeEnd).reverse).length
      let ws := (takeRun (fun c => isJsWs c) (title.take (wholeEnd - w)).reverse).length
      let prevEnd := wholeEnd - w - ws
      if okAt prevEnd then some (trimStr (title.take prevEnd)) else none
    else none
  else none

/-- `extractProductAndVersion(title)` (`src/util.js` lines 419–443). -/
def extractProductAndVersion (title : Str) : Option Str × Option Str :=
  match tryDockerWordVersion title with
  | some (prod, ver) => (some prod, some ver)
  | none =>
    match tryAnyVersion title (title.length + 1) 0 with
    | some (pre, ver) =>
      let prod := trimStr (stripTrailPunct (trimStr pre))
      (if prod = [] then none else some prod, some ver)
    | none =>
      match tryDockerPhrase title with
      | some prod => (some prod, none)
      | none => (none, none)

/- ### Date normalization (`toISODateLoose`, lines 445–481) -/

/-- Decimal digits of a natural number (`String(n)` on a `Nat`). -/
def natToStrAux : Nat → Nat → Str
  | 0, _ => []
  | fuel + 1, n =>
    if n < 10 then [Char.ofNat (48 + n)]
    else natToStrAux fuel (n / 10) ++ [Char.ofNat (48 + n % 10)]

def natToStr (n : Nat) : Str := natToStrAux (n + 1) n

/-- `String(x).padStart(2, "0")`. -/
def padStart2 (s : Str) : Str :=
  if s.length < 2 then List.replicate (2 - s.length) '0' ++ s else s

/-- The JS object `m` in `monthToNum` (lines 483–499), as an association
table from lowercase month names. -/
def monthTable : List (Str × Nat) :=
  [("january".data, 1), ("february".data, 2), ("march".data, 3),
   ("april".data, 4), ("may".data, 5), ("june".data, 6),
   ("july".data, 7), ("august".data, 8), ("september".data, 9),
   ("october".data, 10), ("november".data, 11), ("december".data, 12)]

/-- `monthToNum`: `m[String(name).toLowerCase()] || null`. -/
def monthToNum (name : Str) : Option Nat :=
  (monthTable.find? (fun p => p.1 = name.map lowerCh)).map (fun p => p.2)

/-- `raw.replace(/\s*,\s*(\d{4})/, " $1")` — first match only; both `\s*`
runs are greedy and deterministic (shrinking puts a whitespace character
where `,` or a digit is required). -/
def tryCommaFixAt (s : Str) : Option Str :=
  let ws1 := takeRun (fun c => isJsWs c) s
  match s.drop ws1.length with
  | ',' :: rest =>
    let ws2 := takeRun (fun c => isJsWs c) rest
    let rest2 := rest.drop ws2.length
    let ds := rest2.take 4
    if ds.length = 4 && ds.all isDigitCh then some (' ' :: ds ++ rest2.drop 4)
    else none
  | _ => none

def commaFix : Nat → Str → Str
  | 0, s => s
  | _ + 1, [] => []
  | fuel + 1, c :: cs =>
    match tryCommaFixAt (c :: cs) with
    | some repl => repl
    | none => c :: commaFix fuel cs

/-- `\b(\d{4})-(\d{2})-(\d{2})\b` attempt at the head of `s` (caller
guarantees the leading word boundary).  `\d{n}` is an exact count; the
trailing `\b` requires end of input or a non-word character. -/
def tryIsoAt (s : Str) : Option Str :=
  let y := s.take 4
  let mo := (s.drop 5).take 2
  let dd := (s.drop 8).take 2
  if y.length = 4 && y.all isDigitCh && s.get? 4 = some '-' &&
      mo.length = 2 && mo.all isDigitCh && s.get? 7 = some '-' &&
      dd.length = 2 && dd.all isDigitCh &&
      (match s.get? 10 with | none => true | some u => !isWordCh u) then
    some (y ++ '-' :: mo ++ '-' :: dd)
  else none

/-- Scan for the first embedded ISO token, tracking the word-boundary
state. -/
def isoScan (prevWord : Bool) : Str → Option Str
  | [] => none
  | c :: rest =>
    match (if !prevWord && isDigitCh c then tryIsoAt (c :: rest) else none) with
    | some tok => some tok
    | none => isoScan (isWordCh c) rest

/-- One day-width attempt of the `\b([A-Za-z]+)\s+(\d{1,2}),\s*(\d{4})\b`
pattern: exactly `n` day digits, a comma, greedy `\s*`, exactly four year
digits and a trailing word boundary. -/
def tryDayN (rest2 mon : Str) (n : Nat) : Option (Str × Str × Str) :=
  let dd := rest2.take n
  let rest3 := rest2.drop (n + 1)
  let rest4 := rest3.drop (takeRun (fun c => isJsWs c) rest3).length
  let ys := rest4.take 4
  if dd.length = n && dd.all isDigitCh && rest2.get? n = some ',' &&
      ys.length = 4 && ys.all isDigitCh &&
      (match rest4.drop 4 with | [] => true | u :: _ => !isWordCh u) then
    some (mon, dd, ys)
  else none

/-- `\b([A-Za-z]+)\s+(\d{1,2}),\s*(\d{4})\b` attempt at a letter-run
start: returns `(monthToken, dayDigits, yearDigits)`.  The greedy day
tries two digits before one. -/
def tryMonDayYearAt (s : Str) : Option (Str × Str × Str) :=
  let mon := takeRun isLetterCh s
  let rest := s.drop mon.length
  let ws := takeRun (fun c => isJsWs c) rest
  let rest2 := rest.drop ws.length
  if mon ≠ [] && ws ≠ [] then
    match tryDayN rest2 mon 2 with
    | some r => some r
    | none => tryDayN rest2 mon 1
  else none

def monDayYearScan (prevWord : Bool) : Str → Option (Str × Str × Str)
  | [] => none
  | c :: rest =>
    match (if !prevWord && isLetterCh c then tryMonDayYearAt (c :: rest) else none) with
    | some r => some r
    | none => monDayYearScan (isWordCh c) rest

/-- `\b([A-Za-z]+)\s+(\d{4})\b` attempt at a letter-run start. -/
def tryMonYearAt (s : Str) : Option (Str × Str) :=
  let mon := takeRun isLetterCh s
  let rest := s.drop mon.length
  let ws := takeRun (fun c => isJsWs c) rest
  let rest2 := rest.drop ws.length
  let ys := rest2.take 4
  if mon ≠ [] && ws ≠ [] && ys.length = 4 && ys.all isDigitCh &&
      (match rest2.drop 4 with | [] => true | u :: _ => !isWordCh u) then
    some (mon, ys)
  else none

def monYearScan (prevWord : Bool) : Str → Option (Str × Str)
  | [] => none
  | c :: rest =>
    match (if !prevWord && isLetterCh c then tryMonYearAt (c :: rest) else none) with
    | some r => some r
    | none => monYearScan (isWordCh c) rest

/- ### The `Date.parse` fallback

`Date.parse` is a host builtin.  ECMA-262 (21.4.3.2) mandates that it
accept the Date Time String Format of 21.4.1.18 — `YYYY[-MM[-DD]]` with
either a four-digit year or an expanded year (a sign and six digits),
optionally followed by `THH:mm[:ss[.sss]]` and an offset designator
`Z`/`±HH:mm`; date-only forms denote UTC, date-time forms without an
offset denote local time.  Beyond that format the accepted grammar is
implementation-defined; the model covers the mandated format plus the
V8/Node behaviour on the month-name date strings this program's
announcement documents feed it — `"<Month> <day> <year>"` and
`"<Month> <year>"` token lists (full month names or their three-letter
abbreviations, day 1–31 with month-relative rollover as in `MakeDay`,
four-digit years 1000–9999), parsed as local midnight.  Other
implementation-specific formats conservatively yield `NaN` (`none`);
whatever extra strings a host engine accepts, the source formats any
finite parse result as `${getUTCFullYear()}-${MM}-${DD}` with month
01–12 and day 01–31, so a larger accept set only adds results of the
shape proven below.  The model also omits the engines' ±8.64e15 ms
range cutoff and the exact-`24:00` end-of-day side conditions, which
only alter which strings are accepted, never the shape of a result.

The host timezone is threaded explicitly as an offset `tz` in minutes
east of UTC; `getUTC*` then shifts the parsed civil date by
`⌊(minutes-into-day − effective-offset) / 1440⌋` days, where the
effective offset is the explicit one when present and `tz` otherwise.
Years are astronomically numbered integers (year `-1` for 1 BC), as
`getUTCFullYear` returns them. -/

def isLeapYear (y : Int) : Bool := (y % 4 = 0 && y % 100 ≠ 0) || y % 400 = 0

def daysInMonth (y : Int) (m : Nat) : Nat :=
  if m = 2 then (if isLeapYear y then 29 else 28)
  else if m = 4 || m = 6 || m = 9 || m = 11 then 30
  else 31

def nextDayCiv : Int × Nat × Nat → Int × Nat × Nat
  | (y, m, d) =>
    if d < daysInMonth y m then (y, m, d + 1)
    else if m < 12 then (y, m + 1, 1)
    else (y + 1, 1, 1)

def prevDayCiv : Int × Nat × Nat → Int × Nat × Nat
  | (y, m, d) =>
    if d > 1 then (y, m, d - 1)
    else if m > 1 then (y, m - 1, daysInMonth y (m - 1))
    else (y - 1, 12, 31)

def addDaysCiv (ymd : Int × Nat × Nat) : Nat → Int × Nat × Nat
  | 0 => ymd
  | k + 1 => addDaysCiv (nextDayCiv ymd) k

def subDaysCiv (ymd : Int × Nat × Nat) : Nat → Int × Nat × Nat
  | 0 => ymd
  | k + 1 => subDaysCiv (prevDayCiv ymd) k

def shiftDaysCiv (ymd : Int × Nat × Nat) (k : Int) : Int × Nat × Nat :=
  if k < 0 then subDaysCiv ymd k.natAbs else addDaysCiv ymd k.natAbs

/-- Three-letter month abbreviations also accepted by the modelled host
parser. -/
def hostMonthTable : List (Str × Nat) :=
  [("jan".data, 1), ("feb".data, 2), ("mar".data, 3), ("apr".data, 4),
   ("jun".data, 6), ("jul".data, 7), ("aug".data, 8), ("sep".data, 9),
   ("oct".data, 10), ("nov".data, 11), ("dec".data, 12)]

/-- Month-name token for the modelled host parser: a full English month
name or its three-letter abbreviation, case-insensitively. -/
def hostMonthOf (w : Str) : Option Nat :=
  match monthToNum w with
  | some m => some m
  | none => (hostMonthTable.find? (fun p => p.1 = w.map lowerCh)).map (fun p => p.2)

/-- Split on whitespace runs into tokens. -/
def tokensOf : Str → List Str
  | [] => []
  | c :: rest =>
    if isJsWs c then tokensOf rest
    else
      match tokensOf rest with
      | [] => [[c]]
      | t :: ts =>
        match rest with
        | [] => [[c]]
        | r :: _ => if isJsWs r then [c] :: t :: ts else (c :: t) :: ts

/-- All-digit token to a number. -/
def digitsToNat (s : Str) : Nat := s.foldl (fun acc c => acc * 10 + (c.toNat - 48)) 0

/-- `String(i)` for an integer, e.g. a `getUTCFullYear()` result. -/
def intToStr (i : Int) : Str :=
  if i < 0 then '-' :: natToStr i.natAbs else natToStr i.toNat

/-- Read exactly `n` decimal digits. -/
def readDigits (n : Nat) (s : Str) : Option (Nat × Str) :=
  if (s.take n).length = n && (s.take n).all isDigitCh then
    some (digitsToNat (s.take n), s.drop n)
  else none

/-- The year of the Date Time String Format: four digits, or an expanded
year — a sign and six digits (`-000000` is invalid). -/
def parseEcmaYear (s : Str) : Option (Int × Str) :=
  match s with
  | '+' :: r =>
    match readDigits 6 r with
    | some (y, rest) => some ((y : Int), rest)
    | none => none
  | '-' :: r =>
    match readDigits 6 r with
    | some (y, rest) => if y = 0 then none else some (-(y : Int), rest)
    | none => none
  | _ =>
    match readDigits 4 s with
    | some (y, rest) => some ((y : Int), rest)
    | none => none

/-- The optional `-MM[-DD]` of the Date Time String Format; omitted
components default to `01`, and engines reject calendar-invalid days in
this format. -/
def parseEcmaMD (y : Int) (s : Str) : Option ((Int × Nat × Nat) × Str) :=
  match s with
  | '-' :: r =>
    match readDigits 2 r with
    | some (m, rest) =>
      if 1 ≤ m && m ≤ 12 then
        match rest with
        | '-' :: r2 =>
          match readDigits 2 r2 with
          | some (d, rest2) =>
            if 1 ≤ d && d ≤ daysInMonth y m then some ((y, m, d), rest2)
            else none
          | none => none
        | _ => some ((y, m, 1), rest)
      else none
    | none => none
  | _ => some ((y, 1, 1), s)

/-- The optional `:ss[.sss]` tail of the time part; seconds never move
the UTC calendar date, so only well-formedness matters. -/
def parseEcmaSec (s : Str) : Option Str :=
  match s with
  | ':' :: r =>
    match readDigits 2 r with
    | some (ss, rest) =>
      if ss ≤ 59 then
        match rest with
        | '.' :: r2 =>
          match readDigits 3 r2 with
          | some (_, rest2) => some rest2
          | none => none
        | _ => some rest
      else none
    | none => none
  | _ => some s

/-- The time-zone designator: absent (local time), `Z`, or `±HH:mm`;
returns the explicit offset in minutes east of UTC when present. -/
def parseEcmaOffset (s : Str) : Option (Option Int) :=
  match s with
  | [] => some none
  | ['Z'] => some (some 0)
  | c :: r =>
    if c = '+' || c = '-' then
      match readDigits 2 r with
      | some (hh, rest) =>
        match rest with
        | ':' :: r2 =>
          match readDigits 2 r2 with
          | some (mm, rest2) =>
            if rest2 = [] && hh ≤ 23 && mm ≤ 59 then
              some (some (if c = '-' then -(((hh * 60 + mm : Nat)) : Int)
                else (((hh * 60 + mm : Nat)) : Int)))
            else none
          | none => none
        | _ => none
      | none => none
    else none

/-- The optional `THH:mm…` part: minutes into the day and the effective
offset; an empty rest (a date-only form) denotes UTC midnight. -/
def parseEcmaTime (s : Str) : Option (Nat × Option Int) :=
  match s with
  | [] => some (0, some 0)
  | 'T' :: r =>
    match readDigits 2 r with
    | some (hh, rest) =>
      match rest with
      | ':' :: r2 =>
        match readDigits 2 r2 with
        | some (mi, rest2) =>
          if hh ≤ 24 && mi ≤ 59 then
            match parseEcmaSec rest2 with
            | some rest3 =>
              match parseEcmaOffset rest3 with
              | some off => some (hh * 60 + mi, off)
              | none => none
            | none => none
          else none
        | none => none
      | _ => none
    | none => none
  | _ => none

/-- A full Date Time String Format parse: the civil date, the minutes
into the day, and the explicit offset (`none` means local time). -/
def parseEcmaDateTime (s : Str) : Option ((Int × Nat × Nat) × Nat × Option Int) :=
  match parseEcmaYear s with
  | some (y, r1) =>
    match parseEcmaMD y r1 with
    | some (ymd, r2) =>
      match parseEcmaTime r2 with
      | some (tmin, off) => some (ymd, tmin, off)
      | none => none
    | none => none
  | none => none

/-- Modelled `Date.parse(cleaned)`: the mandated Date Time String Format
first, then the V8 month-name forms (parsed as local midnight), else
`NaN` (`none`). -/
def jsDateParseCivil (s : Str) : Option ((Int × Nat × Nat) × Nat × Option Int) :=
  match parseEcmaDateTime s with
  | some r => some r
  | none =>
    match tokensOf s with
    | [w1, w2, w3] =>
      match hostMonthOf w1 with
      | some m =>
        if w2 ≠ [] && w2.all isDigitCh && w2.length ≤ 2 &&
            w3.length = 4 && w3.all isDigitCh &&
            1 ≤ digitsToNat w2 && digitsToNat w2 ≤ 31 && 1000 ≤ digitsToNat w3 then
          -- `MakeDay` rolls a too-large day over into the next month
          some (addDaysCiv ((digitsToNat w3 : Int), m, 1) (digitsToNat w2 - 1), 0, none)
        else none
      | none => none
    | [w1, w2] =>
      match hostMonthOf w1 with
      | some m =>
        if w2.length = 4 && w2.all isDigitCh && 1000 ≤ digitsToNat w2 then
          some (((digitsToNat w2 : Int), m, 1), 0, none)
        else none
      | none => none
    | _ => none

/-- `${d.getUTCFullYear()}-${MM}-${DD}` formatting of a civil date. -/
def fmtUTC (ymd : Int × Nat × Nat) : Str :=
  intToStr ymd.1 ++ '-' :: padStart2 (natToStr ymd.2.1) ++ '-' ::
    padStart2 (natToStr ymd.2.2)

/-- Rule 2 of `toISODateLoose`: `Month DD, YYYY` (the regex requires the
comma, which the comma-normalization usually has already removed). -/
def isoBranch2 (cleaned : Str) : Option Str :=
  match monDayYearScan false cleaned with
  | some (mon, dd, yyyy) =>
    match monthToNum mon with
    | some mm => some (yyyy ++ '-' :: padStart2 (natToStr mm) ++ '-' :: padStart2 dd)
    | none => none
  | none => none

/-- Rule 3 of `toISODateLoose`: `Month YYYY`, day defaulting to `01`. -/
def isoBranch3 (cleaned : Str) : Option Str :=
  match monYearScan false cleaned with
  | some (mon, yyyy) =>
    match monthToNum mon with
    | some mm => some (yyyy ++ '-' :: padStart2 (natToStr mm) ++ '-' :: "01".data)
    | none => none
  | none => none

/-- Rule 4 of `toISODateLoose`: the `Date.parse` fallback, formatted
with `getUTC*` under host timezone `tz`: the parsed civil date shifted
by `⌊(minutes − effective offset) / 1440⌋` days, with `tz` as the
effective offset for local-time parses. -/
def isoFallback (tz : Int) (cleaned : Str) : Option Str :=
  match jsDateParseCivil cleaned with
  | some (ymd, timeMin, off) =>
    some (fmtUTC (shiftDaysCiv ymd (Int.fdiv ((timeMin : Int) -
      (match off with | some o => o | none => tz)) 1440)))
  | none => none

/-- `toISODateLoose(raw)` on the cleaned string: the four rules in
source order, each falling through to the next (an unknown month name in
rule 2 or 3 also falls through). -/
def toISOCleaned (tz : Int) (cleaned : Str) : Option Str :=
  match isoScan false cleaned with
  | some tok => some tok
  | none =>
    match isoBranch2 cleaned with
    | some r => some r
    | none =>
      match isoBranch3 cleaned with
      | some r => some r
      | none => isoFallback tz cleaned

/-- `toISODateLoose(raw)` (lines 445–481), with the ambient host timezone
made explicit for the `Date.parse` fallback. -/
def toISODateLoose (tz : Int) (raw : Str) : Option Str :=
  if raw = [] then none
  else toISOCleaned tz (trimStr (commaFix (raw.length + 1) raw))

/- ### The release pipeline (`parseReleases`, lines 268–318) -/

structure RelRecord where
  version : Str
  date : Option Str
  details : Str
deriving DecidableEq, Repr

/-- One release record from a raw (heading, body) section. -/
def relRecordOf (hb : Str × Str) : RelRecord :=
  let versionHeading := trimStr hb.1
  let version :=
    match versionTriple versionHeading with
    | some v => v
    | none => versionHeading     -- `(match || [,""])[1] || versionHeading`
  { version := version
    date := releaseDateOf hb.2
    details := cleanReleaseBody hb.2 }

/-- The extracted release records, in document order. -/
def releaseBlocks (markdown : Str) : List RelRecord :=
  ((sectionsOf (normalizeNewlines markdown)).map relRecordOf)

/-- JS truthiness of a nullable string. -/
def truthyOpt : Option Str → Bool
  | none => false
  | some s => s ≠ []

/-- Rendering of one selected release record. -/
def renderRelRecord (r : RelRecord) : Str :=
  let header := "## ".data ++ r.version ++
    (if truthyOpt r.date then " — ".data ++ r.date.getD [] else [])
  header ++ '\n' :: (r.details.dropWhile (fun c => isJsWs c))

/-- `parseReleases(markdown, n)`.  The ambient host timezone `tz` is
threaded to mirror the runtime environment; the release pipeline never
consults it. -/
def parseReleases (_tz : Int) (markdown : Str) (n : Nat) : Str :=
  joinSep "\n\n---\n\n".data (((releaseBlocks markdown).take n).map renderRelRecord)

/- ### The security pipeline (`parseSecurityAnnouncements`, lines 327–390) -/

structure SecRecord where
  title : Str
  lastUpdatedISO : Option Str
  lastUpdatedRaw : Option Str
  product : Option Str
  version : Option Str
  cves : List Str
  detailsMarkdown : Str
deriving DecidableEq, Repr

/-- The security body cleaning step (lines 364–367). -/
def cleanSecurityBody (body : Str) : Str :=
  trimStr (stripTrailingWs (admColl true (body.length + 1) true body))

/-- One security record from a raw (heading, body) section. -/
def secRecordOf (tz : Int) (hb : Str × Str) : SecRecord :=
  let title := trimStr hb.1
  let body0 := trimStr hb.2
  let body1 := trimStr (removeShortcodes "rss-button".data true (body0.length + 1) body0)
  let lu := findLastUpdated body1 (body1.length + 1) 0
  let lastUpdatedRaw := lu.map (fun m => trimStr m.2)
  let lastUpdatedISO := lastUpdatedRaw.bind (fun r => toISODateLoose tz r)
  let body2 :=
    match lu with
    | some (m0, _) => trimStr (removeFirstOcc m0 (body1.length + 1) body1)
    | none => body1
  let pv := extractProductAndVersion title
  let cves := cveField (title ++ '\n' :: body2)
  { title := title
    lastUpdatedISO := lastUpdatedISO
    lastUpdatedRaw := lastUpdatedRaw
    product := pv.1
    version := pv.2
    cves := cves
    detailsMarkdown := cleanSecurityBody body2 }

/-- The extracted security records, in document order. -/
def securityBlocks (tz : Int) (markdown : Str) : List SecRecord :=
  (sectionsOf (normalizeNewlines markdown)).map (secRecordOf tz)

/-- `b.lastUpdatedISO || ""` as used by the sort comparator. -/
def secKey (b : SecRecord) : Str :=
  match b.lastUpdatedISO with
  | some s => s
  | none => []

/-- The sort comparator `(a,b) => (b.iso||"").localeCompare(a.iso||"")`
expressed as the `a`-may-stay-before-`b` relation (descending by key). -/
def secLe (a b : SecRecord) : Bool := lexLe (secKey b) (secKey a)

/-- Dated records sorted descending, then undated records in original
order (lines 380–388). -/
def securityOrdered (tz : Int) (markdown : Str) : List SecRecord :=
  sortJs secLe ((securityBlocks tz markdown).filter (fun b => truthyOpt b.lastUpdatedISO)) ++
    (securityBlocks tz markdown).filter (fun b => !truthyOpt b.lastUpdatedISO)

/-- `indent(text, 2)`: two spaces before every nonempty line. -/
def indent2 (t : Str) : Str :=
  joinSep ['\n'] ((linesOf t).map (fun l => if l = [] then l else ' ' :: ' ' :: l))

/-- The `lines` pushed for one announcement in
`formatAnnouncementsForLLM`. -/
def secRecordLines (a : SecRecord) : List Str :=
  let header := '\n' :: ("## ".data ++ a.title ++
    (if truthyOpt a.lastUpdatedISO then " — updated ".data ++ (a.lastUpdatedISO.getD []) else []))
  let metaBits : List Str :=
    (if truthyOpt a.product then ["Product: ".data ++ a.product.getD []] else []) ++
    (if truthyOpt a.version then ["Version: ".data ++ a.version.getD []] else []) ++
    (if a.cves ≠ [] then ["CVEs: ".data ++ joinSep ", ".data a.cves] else [])
  header ::
    (if truthyOpt a.product || truthyOpt a.version || a.cves ≠ [] then
      [joinSep ['\n'] (metaBits.map (fun s => '-' :: ' ' :: s))]
    else []) ++
    ["Details:".data, indent2 a.detailsMarkdown]

/-- `formatAnnouncementsForLLM` (lines 398–415). -/
def formatAnnouncementsForLLM (ann : List SecRecord) : Str :=
  joinSep ['\n'] (ann.flatMap secRecordLines)

/-- `parseSecurityAnnouncements(markdown, limit)` under host timezone
offset `tz` (minutes east of UTC). -/
def parseSecurityAnnouncements (tz : Int) (markdown : Str) (limit : Nat) : Str :=
  formatAnnouncementsForLLM ((securityOrdered tz markdown).take limit)

/- ### The public interface on JavaScript values -/

/-- The argument values relevant to the entry points: a string, `null`,
or `undefined`. -/
inductive JsVal where
  | str (s : Str)
  | nullV
  | undef
deriving DecidableEq

/-- `parseReleases` begins with `markdown.replace(...)`: on `null` or
`undefined` this throws a `TypeError`. -/
def parseReleasesJs (tz : Int) : JsVal → Nat → Except Unit Str
  | .str s, n => .ok (parseReleases tz s n)
  | _, _ => .error ()

/-- `parseSecurityAnnouncements` begins with `String(markdown || "")`:
`null` and `undefined` are coerced to the empty string. -/
def parseSecurityAnnouncementsJs (tz : Int) : JsVal → Nat → Except Unit Str
  | .str s, n => .ok (parseSecurityAnnouncements tz s n)
  | _, n => .ok (parseSecurityAnnouncements tz [] n)

/- ### Specification-side definitions (used to state claims) -/

/-- Claim C6's section-count metric, from the claim's words: the number
of output lines that begin with `"## "`. -/
def hashHeadingCount (s : Str) : Nat :=
  ((linesOf s).filter (fun l => "## ".data.isPrefixOf l)).length

theorem lexLe_total (a b : Str) : lexLe a b = true ∨ lexLe b a = true := by
  induction a generalizing b with
  | nil => left; rfl
  | cons x xs ih =>
    cases b with
    | nil => right; rfl
    | cons y ys =>
      simp only [lexLe]
      rcases lt_trichotomy x y with h | h | h
      · left; simp [h, not_lt_of_gt h]
      · subst h; simpa [lt_irrefl] using ih ys
      · right; simp [h, not_lt_of_gt h]

theorem lexLe_trans {a b c : Str} (h1 : lexLe a b = true) (h2 : lexLe b c = true) :
    lexLe a c = true := by
  induction a generalizing b c with
  | nil => rfl
  | cons x xs ih =>
    cases b with
    | nil => simp [lexLe] at h1
    | cons y ys =>
      cases c with
      | nil => simp [lexLe] at h2
      | cons z zs =>
        simp only [lexLe] at h1 h2 ⊢
        split at h1
        · rename_i hxy
          split at h2
          · rename_i hyz
            have := lt_trans hxy hyz
            simp [this]
          · split at h2
            · exact absurd h2 (by simp)
            · rename_i hzy hyz
              have hyz' : y = z := le_antisymm (not_lt.mp hyz) (not_lt.mp hzy)
              subst hyz'
              simp [hxy]
        · split at h1
          · exact absurd h1 (by simp)
          · rename_i hyx hxy
            have hxy' : x = y := le_antisymm (not_lt.mp hxy) (not_lt.mp hyx)
            subst hxy'
            split at h2
            · rename_i hxz; simp [hxz]
            · split at h2
              · exact absurd h2 (by simp)
              · rename_i hzx hxz
                simp only [if_neg hxz, if_neg hzx]
                exact ih h1 h2

theorem lexLe_nil (s : Str) : lexLe [] s = true := rfl

section SortLemmas

variable {α : Type} (le : α → α → Bool)

theorem insLe_perm (x : α) (l : List α) : List.Perm (insLe le x l) (x :: l) := by
  induction l with
  | nil => rfl
  | cons y ys ih =>
    simp only [insLe]
    split
    · rfl
    · exact ((ih.cons y).trans (List.Perm.swap x y ys))

theorem sortJs_perm (l : List α) : List.Perm (sortJs le l) l := by
  induction l with
  | nil => rfl
  | cons x xs ih => exact (insLe_perm le x (sortJs le xs)).trans (ih.cons x)

theorem insLe_pairwise
    (total : ∀ a b, le a b = true ∨ le b a = true)
    (trans : ∀ {a b c}, le a b = true → le b c = true → le a c = true)
    (x : α) (l : List α) (h : l.Pairwise (fun a b => le a b = true)) :
    (insLe le x l).Pairwise (fun a b => le a b = true) := by
  induction l with
  | nil => simp [insLe]
  | cons y ys ih =>
    simp only [insLe]
    split
    · rename_i hxy
      refine List.Pairwise.cons ?_ h
      intro z hz
      rcases hz with _ | hz
      · exact hxy
      · exact trans hxy (List.rel_of_pairwise_cons h (by assumption))
    · rename_i hxy
      have hyx : le y x = true := (total x y).resolve_left (by simpa using hxy)
      rcases h with _ | ⟨hy, hys⟩
      refine List.Pairwise.cons ?_ (ih hys)
      intro z hz
      rcases List.mem_cons.mp ((insLe_perm le x ys).mem_iff.mp hz) with rfl | hzys
      · exact hyx
      · exact hy z hzys

theorem sortJs_pairwise
    (total : ∀ a b, le a b = true ∨ le b a = true)
    (trans : ∀ {a b c}, le a b = true → le b c = true → le a c = true)
    (l : List α) : (sortJs le l).Pairwise (fun a b => le a b = true) := by
  induction l with
  | nil => simp [sortJs]
  | cons x xs ih => exact insLe_pairwise le total (fun {a b c} => trans) x _ ih

end SortLemmas

theorem dedupKeepFirst_nodup (l : List Str) : (dedupKeepFirst l).Nodup := by
  induction l with
  | nil => simp [dedupKeepFirst]
  | cons x xs ih =>
    simp only [dedupKeepFirst]
    split
    · refine List.Nodup.cons ?_ (List.Nodup.filter _ ih)
      intro hx
      have := List.of_mem_filter hx
      simp at this
    · rename_i hx
      exact List.Nodup.cons hx ih

/- ### Helper lemmas: digit strings -/

theorem secLe_total (a b : SecRecord) : secLe a b = true ∨ secLe b a = true :=
  (lexLe_total (secKey b) (secKey a)).elim Or.inl Or.inr

theorem secLe_trans {a b c : SecRecord} (h1 : secLe a b = true)
    (h2 : secLe b c = true) : secLe a c = true :=
  lexLe_trans h2 h1

theorem secKey_of_not_truthy {b : SecRecord}
    (h : truthyOpt b.lastUpdatedISO = false) : secKey b = [] := by
  unfold truthyOpt at h
  unfold secKey
  split
  · rename_i s hs
    rw [hs] at h
    simpa using h
  · rfl

theorem secLe_of_undated {a b : SecRecord}
    (h : truthyOpt b.lastUpdatedISO = false) : secLe a b = true := by
  unfold secLe
  rw [secKey_of_not_truthy h]
  exact lexLe_nil _

theorem securityOrdered_pairwise (tz : Int) (md : Str) :
    (securityOrdered tz md).Pairwise (fun a b => secLe a b = true) := by
  unfold securityOrdered
  rw [List.pairwise_append]
  refine ⟨sortJs_pairwise secLe secLe_total (fun {a b c} => secLe_trans) _, ?_, ?_⟩
  · refine List.pairwise_of_forall_mem_list ?_
    intro a _ b hb
    exact secLe_of_undated (by simpa using (List.mem_filter.mp hb).2)
  · intro a _ b hb
    exact secLe_of_undated (by simpa using (List.mem_filter.mp hb).2)

/- ### Helper lemmas: release version extraction -/

theorem versionTriple_ne_nil {h v : Str} (hv : versionTriple h = some v) : v ≠ [] := by
  unfold versionTriple at hv
  simp only [] at hv
  split at hv
  · rw [Option.some.injEq] at hv
    subst hv
    intro he
    rw [List.append_eq_nil] at he
    exact absurd he.2 (by simp)
  · exact Option.noConfusion hv

theorem relRecordOf_version_ne_nil (hb : Str × Str) (h : trimStr hb.1 ≠ []) :
    (relRecordOf hb).version ≠ [] := by
  unfold relRecordOf
  dsimp only
  split
  · rename_i v hv
    exact versionTriple_ne_nil hv
  · exact h

/- ### Helper lemmas: line counting (claim C6) -/

theorem linesOf_ne_nil (s : Str) : linesOf s ≠ [] := by
  cases s with
  | nil => simp [linesOf]
  | cons c rest =>
    simp only [linesOf]
    split
    · simp
    · split <;> simp

theorem linesOf_append_nl (a b : Str) :
    linesOf (a ++ '\n' :: b) = linesOf a ++ linesOf b := by
  induction a with
  | nil =>
    simp only [List.nil_append, linesOf]
    rcases hE : linesOf b with _ | ⟨l, ls⟩
    · exact absurd hE (linesOf_ne_nil b)
    · simp
  | cons c a2 ih =>
    simp only [List.cons_append, linesOf, List.append_eq]
    rw [ih]
    rcases hE : linesOf a2 with _ | ⟨l, ls⟩
    · exact absurd hE (linesOf_ne_nil a2)
    · dsimp only
      split_ifs <;> simp

theorem hashHeadingCount_append_nl (a b : Str) :
    hashHeadingCount (a ++ '\n' :: b) = hashHeadingCount a + hashHeadingCount b := by
  unfold hashHeadingCount
  rw [linesOf_append_nl, List.filter_append, List.length_append]

theorem hashHeadingCount_nl_cons (b : Str) :
    hashHeadingCount ('\n' :: b) = hashHeadingCount b := by
  have := hashHeadingCount_append_nl [] b
  simpa [hashHeadingCount, linesOf] using this

theorem hashHeadingCount_sep (x w : Str) :
    hashHeadingCount (x ++ "\n\n---\n\n".data ++ w) =
      hashHeadingCount x + hashHeadingCount w := by
  have h1 : x ++ "\n\n---\n\n".data ++ w =
      x ++ '\n' :: ('\n' :: ('-' :: '-' :: '-' :: '\n' :: ('\n' :: w))) := by
    simp
  rw [h1, hashHeadingCount_append_nl]
  have h2 : hashHeadingCount ('\n' :: ('-' :: '-' :: '-' :: '\n' :: ('\n' :: w))) =
      hashHeadingCount w := by
    rw [hashHeadingCount_nl_cons]
    have h3 := hashHeadingCount_append_nl ['-', '-', '-'] ('\n' :: w)
    have h4 : (['-', '-', '-'] : Str) ++ '\n' :: ('\n' :: w) =
        '-' :: '-' :: '-' :: '\n' :: ('\n' :: w) := rfl
    rw [h4] at h3
    rw [h3, hashHeadingCount_nl_cons]
    have h5 : hashHeadingCount ['-', '-', '-'] = 0 := by decide
    omega
  rw [h2]

theorem hashHeadingCount_joinSep (entries : List Str) :
    hashHeadingCount (joinSep "\n\n---\n\n".data entries) =
      (entries.map hashHeadingCount).sum := by
  induction entries with
  | nil => rfl
  | cons x rest ih =>
    cases rest with
    | nil => simp [joinSep]
    | cons y rest2 =>
      rw [joinSep, hashHeadingCount_sep, ih]
      simp

theorem sum_le_length {l : List Nat} (h : ∀ x ∈ l, x ≤ 1) : l.sum ≤ l.length := by
  induction l with
  | nil => simp
  | cons x rest ih =>
    simp only [List.sum_cons, List.length_cons]
    have hx := h x (List.mem_cons_self x rest)
    have := ih (fun y hy => h y (List.mem_cons_of_mem x hy))
    omega

/- ### Helper lemmas: cleaning (claim C8) -/

theorem mem_of_mem_dropWhile {p : Char → Bool} {x : Char} :
    ∀ {l : Str}, x ∈ l.dropWhile p → x ∈ l := by
  intro l
  induction l with
  | nil => intro h; simpa using h
  | cons c rest ih =>
    intro h
    rw [List.dropWhile_cons] at h
    split at h
    · exact List.mem_cons_of_mem c (ih h)
    · exact h

theorem tryShortcodeAt_none {name : Str} {ci : Bool} {s : Str} (h : '{' ∉ s) :
    tryShortcodeAt name ci s = none := by
  cases s with
  | nil => rfl
  | cons c cs =>
    have hc : c ≠ '{' := fun he => h (he ▸ List.mem_cons_self c cs)
    unfold tryShortcodeAt
    split
    · rename_i heq
      rw [List.cons.injEq] at heq
      exact absurd heq.1 hc
    · rfl

theorem removeShortcodes_id {name : Str} {ci : Bool} :
    ∀ (fuel : Nat) (s : Str), '{' ∉ s → removeShortcodes name ci fuel s = s := by
  intro fuel
  induction fuel with
  | zero => intro s _; rfl
  | succ f ih =>
    intro s hs
    cases s with
    | nil => rfl
    | cons c cs =>
      unfold removeShortcodes
      rw [tryShortcodeAt_none hs]
      rw [ih cs (fun hm => hs (List.mem_cons_of_mem c hm))]

theorem tryAdmCore_none {t : Str} (h : '[' ∉ t) : tryAdmCore t = none := by
  unfold tryAdmCore
  split
  · rename_i rest
    have hrest : '[' ∉ rest := fun hm => h (List.mem_cons_of_mem '>' hm)
    split
    · rename_i rest2 heq2
      have hmem : '[' ∈ List.dropWhile (fun c => isJsWs c) rest := by
        rw [heq2]
        exact List.mem_cons_self _ _
      exact absurd (mem_of_mem_dropWhile hmem) hrest
    · rfl
  · rfl

theorem tryAdmAt_none {sec : Bool} {s : Str} (h : '[' ∉ s) : tryAdmAt sec s = none := by
  unfold tryAdmAt
  apply tryAdmCore_none
  split
  · exact fun hm => h (mem_of_mem_dropWhile hm)
  · exact h

theorem admColl_id {sec : Bool} :
    ∀ (fuel : Nat) (b : Bool) (s : Str), '[' ∉ s → admColl sec fuel b s = s := by
  intro fuel
  induction fuel with
  | zero => intro b s _; rfl
  | succ f ih =>
    intro b s hs
    cases s with
    | nil => rfl
    | cons c cs =>
      unfold admColl
      have : (if b then tryAdmAt sec (c :: cs) else none) = none := by
        split
        · exact tryAdmAt_none hs
        · rfl
      rw [this]
      rw [ih (c = '\n') cs (fun hm => hs (List.mem_cons_of_mem c hm))]

theorem dropWhile_invol {p : Char → Bool} :
    ∀ l : Str, (l.dropWhile p).dropWhile p = l.dropWhile p := by
  intro l
  induction l with
  | nil => rfl
  | cons c rest ih =>
    rw [List.dropWhile_cons]
    split
    · exact ih
    · rename_i hc
      rw [List.dropWhile_cons, if_neg hc]

theorem dropTrailingSpTab_invol (l : Str) :
    dropTrailingSpTab (dropTrailingSpTab l) = dropTrailingSpTab l := by
  unfold dropTrailingSpTab
  rw [List.reverse_reverse, dropWhile_invol]

theorem nl_not_mem_dropTrailingSpTab {l : Str} (h : '\n' ∉ l) :
    '\n' ∉ dropTrailingSpTab l := by
  intro hm
  apply h
  unfold dropTrailingSpTab at hm
  rw [List.mem_reverse] at hm
  have := mem_of_mem_dropWhile hm
  rwa [List.mem_reverse] at this

theorem nl_not_mem_linesOf : ∀ (s : Str) (l : Str), l ∈ linesOf s → '\n' ∉ l := by
  intro s
  induction s with
  | nil =>
    intro l hl
    simp only [linesOf, List.mem_singleton] at hl
    subst hl
    simp
  | cons c rest ih =>
    intro l hl
    simp only [linesOf] at hl
    rcases hE : linesOf rest with _ | ⟨x, xs⟩
    · exact absurd hE (linesOf_ne_nil rest)
    · rw [hE] at hl
      dsimp only at hl
      split_ifs at hl with hc
      · rcases List.mem_cons.mp hl with rfl | hl2
        · simp
        · exact ih l (hE ▸ hl2)
      · rcases List.mem_cons.mp hl with rfl | hl2
        · intro hm
          rcases List.mem_cons.mp hm with rfl | hm2
          · exact hc rfl
          · exact ih x (hE ▸ List.mem_cons_self x xs) hm2
        · exact ih l (hE ▸ List.mem_cons_of_mem x hl2)

theorem linesOf_no_nl {s : Str} (h : '\n' ∉ s) : linesOf s = [s] := by
  induction s with
  | nil => rfl
  | cons c rest ih =>
    have hc : c ≠ '\n' := fun he => h (he ▸ List.mem_cons_self c rest)
    have hrest : '\n' ∉ rest := fun hm => h (List.mem_cons_of_mem c hm)
    simp only [linesOf, ih hrest]
    rw [if_neg hc]

theorem linesOf_joinSep_nl :
    ∀ ls : List Str, ls ≠ [] → (∀ l ∈ ls, '\n' ∉ l) →
      linesOf (joinSep ['\n'] ls) = ls := by
  intro ls
  induction ls with
  | nil => intro h; exact absurd rfl h
  | cons x rest ih =>
    intro _ hnl
    cases rest with
    | nil =>
      rw [joinSep]
      exact linesOf_no_nl (hnl x (List.mem_cons_self x []))
    | cons y rest2 =>
      have hform : joinSep ['\n'] (x :: y :: rest2) =
          x ++ '\n' :: joinSep ['\n'] (y :: rest2) := by
        rw [joinSep]; simp
      rw [hform, linesOf_append_nl,
        linesOf_no_nl (hnl x (List.mem_cons_self x _)),
        ih (by simp) (fun l hl => hnl l (List.mem_cons_of_mem x hl))]
      rfl

theorem stripTrailingWs_invol (s : Str) :
    stripTrailingWs (stripTrailingWs s) = stripTrailingWs s := by
  unfold stripTrailingWs
  rw [linesOf_joinSep_nl ((linesOf s).map dropTrailingSpTab)
    (by
      intro hmap
      exact absurd (List.map_eq_nil_iff.mp hmap) (linesOf_ne_nil s))
    (by
      intro l hl
      obtain ⟨l0, hl0, rfl⟩ := List.mem_map.mp hl
      exact nl_not_mem_dropTrailingSpTab (nl_not_mem_linesOf s l0 hl0))]
  rw [List.map_map]
  congr 1
  apply List.map_congr_left
  intro l _
  exact dropTrailingSpTab_invol l

theorem fdiv_shift_zero {tz : Int} (h1 : -1440 < tz) (h2 : tz ≤ 0) :
    Int.fdiv (-tz) 1440 = 0 := by
  rw [Int.fdiv_eq_ediv _ (by norm_num)]
  exact Int.ediv_eq_zero_of_lt (by omega) (by omega)

theorem cleanReleaseBody_eq_self {c : Str} (h1 : '{' ∉ c) (h2 : '[' ∉ c)
    (h3 : trimStr c = c) (h4 : stripTrailingWs c = c) : cleanReleaseBody c = c := by
  unfold cleanReleaseBody
  simp only []
  rw [removeShortcodes_id (c.length + 1) c h1, removeShortcodes_id (c.length + 1) c h1,
    removeShortcodes_id (c.length + 1) c h1, h3, admColl_id (c.length + 1) true c h2, h4]

theorem cleanReleaseBody_strip_fixed (b : Str) :
    stripTrailingWs (cleanReleaseBody b) = cleanReleaseBody b := by
  unfold cleanReleaseBody
  simp only []
  exact stripTrailingWs_invol _

theorem cleanSecurityBody_eq_self {c : Str} (h2 : '[' ∉ c)
    (h3 : trimStr c = c) (h4 : stripTrailingWs c = c) : cleanSecurityBody c = c := by
  unfold cleanSecurityBody
  rw [admColl_id (c.length + 1) true c h2, h4, h3]

/- ### Claim theorems -/

/-- C1: the claim says the segmenter emits one RawSection per `## `
heading with the body running to the next such heading or to the end of
the document, a trailing section included.  Evaluating the embedded
segmenter (which mirrors the JavaScript semantics of the pattern, where
`\Z` matches a literal `Z`) at the failing inputs shows the code does
not do this: a final section followed by neither another heading nor a
`Z` is dropped entirely, and a body is truncated at the first literal
`Z`. -/
theorem c1_segmenter_drops_final_section :
    sectionsOf "## A\nhello\n".data = [] ∧
    parseSecurityAnnouncements 0 "## A\nhello\n".data 6 = [] ∧
    parseReleases 0 "## A\nhello\n".data 6 = [] ∧
    sectionsOf "## A\nZoo\n## B\nx\nZ".data =
      [("A".data, []), ("B".data, "x\n".data)] := by
  exact ⟨by decide, by decide, by decide, by decide⟩

/-- C2 counterexample: the code does not case-fold CVE matches.  The
claim's example input yields the two-element list with both spellings
kept verbatim, not the single-element case-folded list. -/
theorem c2_counterexample_cve_case_preserved :
    cveField "CVE-2025-9074 and cve-2025-9074 again".data =
      ["CVE-2025-9074".data, "cve-2025-9074".data] ∧
    cveField "CVE-2025-9074 and cve-2025-9074 again".data ≠
      ["CVE-2025-9074".data] := by
  exact ⟨by decide, by decide⟩

/-- C2 (amended): the cves field scans for `CVE-\d{4}-\d{4,7}`
case-insensitively, keeps the matched substrings verbatim (no case
folding), deduplicates exact strings, and sorts ascending by code
units; the claim's example therefore yields both spellings. -/
theorem c2_cves_dedup_sorted_verbatim :
    (∀ s : Str, (cveField s).Nodup ∧
      (cveField s).Pairwise (fun a b => lexLe a b = true)) ∧
    cveField "CVE-2025-9074 and cve-2025-9074 again".data =
      ["CVE-2025-9074".data, "cve-2025-9074".data] := by
  constructor
  · intro s
    constructor
    · exact ((sortJs_perm lexLe (dedupKeepFirst
        (cveMatches (s.length + 1) s))).nodup_iff).mpr (dedupKeepFirst_nodup _)
    · exact sortJs_pairwise lexLe lexLe_total (fun {a b c} => lexLe_trans) _
  · decide

/-- C4: the security ranker partitions records into dated and undated,
sorts the dated ones descending by `lastUpdatedISO` (undated keep their
relative order after them) — so every record in the concatenation is
`secLe`-ordered — and the spec's three-section example (last-updated
raw values `March 2024`, `2025-01-10`, and absent) renders the
2025-01-10 item first, the March 2024 item second, and the undated item
last.  (The third section's body holds a `Z` so that the segmenter's
literal-`Z` boundary emits it.) -/
theorem c4_security_order_dated_desc_then_undated :
    (∀ (tz : Int) (md : Str),
      (securityOrdered tz md).Pairwise (fun a b => secLe a b = true)) ∧
    (securityBlocks 0 ("## S1\n_Last updated March 2024_\nBody one.\n" ++
        "## S2\n_Last updated 2025-01-10_\nBody two.\n## S3\nZrest").data).map
      (fun b => b.lastUpdatedRaw) =
      [some "March 2024".data, some "2025-01-10".data, none] ∧
    parseSecurityAnnouncements 0 ("## S1\n_Last updated March 2024_\nBody one.\n" ++
        "## S2\n_Last updated 2025-01-10_\nBody two.\n## S3\nZrest").data 6 =
      ("\n## S2 — updated 2025-01-10\nDetails:\n  Body two.\n" ++
        "\n## S1 — updated 2024-03-01\nDetails:\n  Body one.\n" ++
        "\n## S3\nDetails:\n").data := by
  refine ⟨securityOrdered_pairwise, by decide, by decide⟩

/-- C5 counterexample: a section whose heading is whitespace-only is
reachable (the greedy `\s+` backtracks into the whitespace run), and its
record's version is the empty string, contradicting the claim's
"version is never empty". -/
theorem c5_counterexample_blank_heading_empty_version :
    (releaseBlocks "## \t \nZ".data).map (fun r => r.version) = [[]] ∧
    parseReleases 0 "## \t \nZ".data 6 = "## \n".data := by
  exact ⟨by decide, by decide⟩

/-- C5 (amended): the version is the dotted-triple token at the start of
the trimmed heading when present, otherwise the trimmed heading verbatim;
it is non-empty whenever the trimmed heading is non-empty (whitespace-only
headings yield an empty version). -/
theorem c5_version_nonempty_unless_blank_heading (hb : Str × Str)
    (h : trimStr hb.1 ≠ []) : (relRecordOf hb).version ≠ [] :=
  relRecordOf_version_ne_nil hb h

/-- C5 witness. -/
theorem c5_version_witness :
    trimStr ("4.45.0".data, "body".data).1 ≠ [] ∧
      (relRecordOf ("4.45.0".data, "body".data)).version ≠ [] :=
  ⟨by decide, c5_version_nonempty_unless_blank_heading ("4.45.0".data, "body".data)
    (by decide)⟩

/-- C6 counterexample: the output's `## `-line count can exceed the
limit: a cleaned body can itself begin with `## ` (here the document
line ` ## hi` starts with a space, so it is not a section boundary, but
the body trim exposes it at a line start in the output), so with limit 1
the rendered digest has two `## ` lines. -/
theorem c6_counterexample_hash_count_exceeds_limit :
    hashHeadingCount (parseReleases 0 "## 4.1.0\n ## hi\nZ".data 1) = 2 ∧
      1 < 2 := by
  exact ⟨by decide, by decide⟩

/-- C6 (amended): the release ranker preserves document order and takes
the first `limit` records, so at most `limit` records are rendered; and
whenever each rendered record contributes at most one `## ` line (i.e.
no cleaned body itself holds such a line), the output's `## `-line count
is at most `limit`. -/
theorem c6_at_most_limit_records (tz : Int) (md : Str) (n : Nat)
    (h : ∀ e ∈ ((releaseBlocks md).take n).map renderRelRecord,
      hashHeadingCount e ≤ 1) :
    ((releaseBlocks md).take n).length ≤ n ∧
      hashHeadingCount (parseReleases tz md n) ≤ n := by
  refine ⟨List.length_take_le n _, ?_⟩
  unfold parseReleases
  rw [hashHeadingCount_joinSep]
  calc ((((releaseBlocks md).take n).map renderRelRecord).map hashHeadingCount).sum
      ≤ ((((releaseBlocks md).take n).map renderRelRecord).map hashHeadingCount).length := by
        refine sum_le_length ?_
        intro x hx
        obtain ⟨e, he, rfl⟩ := List.mem_map.mp hx
        exact h e he
    _ = (((releaseBlocks md).take n).map renderRelRecord).length := List.length_map _ _
    _ = ((releaseBlocks md).take n).length := List.length_map _ _
    _ ≤ n := List.length_take_le n _

/-- C6 witness. -/
theorem c6_witness :
    (∀ e ∈ ((releaseBlocks "## 4.45.0\nok\nZ".data).take 1).map renderRelRecord,
      hashHeadingCount e ≤ 1) ∧
    ((releaseBlocks "## 4.45.0\nok\nZ".data).take 1).length ≤ 1 ∧
      hashHeadingCount (parseReleases 0 "## 4.45.0\nok\nZ".data 1) ≤ 1 :=
  ⟨by decide, c6_at_most_limit_records 0 "## 4.45.0\nok\nZ".data 1 (by decide)⟩

/-- C7 counterexample: `normalize("July 15, 2024")` is not
`"2024-07-15"` on every host: the comma normalization removes the comma
that rule 2 requires, the string falls through to the `Date.parse`
fallback, which parses it as **local** midnight, and on a host east of
UTC (offset +60 minutes) the UTC-formatted result is the previous day. -/
theorem c7_counterexample_july15_east_of_utc :
    toISODateLoose 60 "July 15, 2024".data = some "2024-07-14".data ∧
    toISODateLoose 60 "July 15, 2024".data ≠ some "2024-07-15".data := by
  exact ⟨by decide, by decide⟩

/-- C7 (amended): `normalize("2024-07-15") = "2024-07-15"`,
`normalize("July 2024") = "2024-07-01"` and `normalize("not a date") =
null` on every host; `normalize("July 15, 2024") = "2024-07-15"` holds
exactly on hosts at or west of UTC (timezone offset in `(-1440, 0]`
minutes east). -/
theorem c7_normalizer_examples (tz : Int) :
    toISODateLoose tz "2024-07-15".data = some "2024-07-15".data ∧
    toISODateLoose tz "July 2024".data = some "2024-07-01".data ∧
    toISODateLoose tz "not a date".data = none ∧
    (-1440 < tz → tz ≤ 0 →
      toISODateLoose tz "July 15, 2024".data = some "2024-07-15".data) := by
  refine ⟨rfl, rfl, rfl, ?_⟩
  intro h1 h2
  have hred : toISODateLoose tz "July 15, 2024".data =
      some (fmtUTC (shiftDaysCiv ((2024 : Int), 7, 15)
        (Int.fdiv (((0 : Nat) : Int) - tz) 1440))) := rfl
  have h0 : (((0 : Nat) : Int)) - tz = -tz := by simp
  rw [hred, h0, fdiv_shift_zero h1 h2]
  decide

/-- C7 witness. -/
theorem c7_witness :
    toISODateLoose 0 "2024-07-15".data = some "2024-07-15".data ∧
    toISODateLoose 0 "July 2024".data = some "2024-07-01".data ∧
    toISODateLoose 0 "not a date".data = none ∧
    toISODateLoose 0 "July 15, 2024".data = some "2024-07-15".data :=
  ⟨(c7_normalizer_examples 0).1, (c7_normalizer_examples 0).2.1,
    (c7_normalizer_examples 0).2.2.1,
    (c7_normalizer_examples 0).2.2.2 (by decide) (by decide)⟩

/-- C8 counterexample: the cleaning step is not idempotent.  A single
global replace pass does not rescan its output, so a nested shortcode
splices a fresh `release-date` directive into the cleaned body, and
cleaning that cleaned body removes it. -/
theorem c8_counterexample_nested_shortcode :
    cleanReleaseBody "{{< release-{{< release-date >}}date x>}}".data =
      "{{< release-date x>}}".data ∧
    cleanReleaseBody (cleanReleaseBody
      "{{< release-{{< release-date >}}date x>}}".data) = [] ∧
    cleanReleaseBody (cleanReleaseBody
        "{{< release-{{< release-date >}}date x>}}".data) ≠
      cleanReleaseBody "{{< release-{{< release-date >}}date x>}}".data := by
  exact ⟨by decide, by decide, by decide⟩

/-- C8 (amended): re-cleaning is a no-op for cleaned bodies containing
no shortcode opening brace and no admonition bracket (and in trim /
trailing-whitespace normal form, which the release cleaner guarantees
and the hypotheses record), in both pipelines; it is not idempotent in
general (see the counterexample). -/
theorem c8_clean_idempotent_without_triggers (b : Str)
    (h1 : '{' ∉ cleanReleaseBody b) (h2 : '[' ∉ cleanReleaseBody b)
    (h3 : trimStr (cleanReleaseBody b) = cleanReleaseBody b)
    (h4 : '[' ∉ cleanSecurityBody b)
    (h5 : stripTrailingWs (cleanSecurityBody b) = cleanSecurityBody b)
    (h6 : trimStr (cleanSecurityBody b) = cleanSecurityBody b) :
    cleanReleaseBody (cleanReleaseBody b) = cleanReleaseBody b ∧
      cleanSecurityBody (cleanSecurityBody b) = cleanSecurityBody b :=
  ⟨cleanReleaseBody_eq_self h1 h2 h3 (cleanReleaseBody_strip_fixed b),
    cleanSecurityBody_eq_self h4 h6 h5⟩

/-- C8 witness. -/
theorem c8_witness :
    ('{' ∉ cleanReleaseBody "x\n> [!NOTE]\ny".data) ∧
    cleanReleaseBody (cleanReleaseBody "x\n> [!NOTE]\ny".data) =
        cleanReleaseBody "x\n> [!NOTE]\ny".data ∧
      cleanSecurityBody (cleanSecurityBody "x\n> [!NOTE]\ny".data) =
        cleanSecurityBody "x\n> [!NOTE]\ny".data :=
  ⟨by decide,
    (c8_clean_idempotent_without_triggers "x\n> [!NOTE]\ny".data (by decide)
      (by decide) (by decide) (by decide) (by decide) (by decide)).1,
    (c8_clean_idempotent_without_triggers "x\n> [!NOTE]\ny".data (by decide)
      (by decide) (by decide) (by decide) (by decide) (by decide)).2⟩

/-- C9 counterexample: `parseSecurityAnnouncements` is not independent
of the host's local timezone.  A document whose last-updated line only
parses via the `Date.parse` fallback renders different digests under
UTC and UTC+2. -/
theorem c9_counterexample_timezone_dependence :
    parseSecurityAnnouncements 0
        "## A\n_Last updated July 15 2024_\ntext\n## B\nZ".data 6 ≠
      parseSecurityAnnouncements 120
        "## A\n_Last updated July 15 2024_\ntext\n## B\nZ".data 6 := by
  decide

/-- C9 (amended): `parseReleases` is a pure function of (text, limit) —
it never consults the host timezone — and `parseSecurityAnnouncements`
is timezone-independent when the last-updated lines resolve before the
`Date.parse` fallback (e.g. embedded ISO dates); in general its output
depends on the host timezone (see the counterexample). -/
theorem c9_release_pipeline_timezone_free :
    (∀ (tz tz2 : Int) (md : Str) (n : Nat),
      parseReleases tz md n = parseReleases tz2 md n) ∧
    (∀ tz tz2 : Int,
      parseSecurityAnnouncements tz
          "## A\n_Last updated 2024-07-15_\nx\n## B\nZ".data 6 =
        parseSecurityAnnouncements tz2
          "## A\n_Last updated 2024-07-15_\nx\n## B\nZ".data 6) :=
  ⟨fun _ _ _ _ => rfl, fun _ _ => rfl⟩

/-- C10: on `null`/`undefined` markdown the two entry points disagree:
the security function coerces to the empty string and returns the empty
digest, while the release function (which immediately calls `.replace`
on its argument) throws; on every string input both return normally. -/
theorem c10_nonstring_inputs_disagree :
    (∀ (tz : Int) (n : Nat),
      parseSecurityAnnouncementsJs tz .nullV n =
          .ok (parseSecurityAnnouncements tz [] n) ∧
      parseSecurityAnnouncementsJs tz .undef n =
          .ok (parseSecurityAnnouncements tz [] n) ∧
      parseSecurityAnnouncements tz [] n = [] ∧
      parseReleasesJs tz .nullV n = .error () ∧
      parseReleasesJs tz .undef n = .error ()) ∧
    (∀ (tz : Int) (s : Str) (n : Nat),
      parseReleasesJs tz (.str s) n = .ok (parseReleases tz s n) ∧
      parseSecurityAnnouncementsJs tz (.str s) n =
        .ok (parseSecurityAnnouncements tz s n)) := by
  constructor
  · intro tz n
    have hod : securityOrdered tz [] = [] := rfl
    have hsec : parseSecurityAnnouncements tz [] n = [] := by
      unfold parseSecurityAnnouncements
      rw [hod, List.take_nil]
      rfl
    exact ⟨rfl, rfl, hsec, rfl, rfl⟩
  · exact fun _ _ _ => ⟨rfl, rfl⟩
